import Mathlib

/-!
Verification development for the `crop_icons.py` utility: a PIL-based
script that walks a directory tree, and for each `.png` file crops the
image to the bounding box of its non-background content, pads it to a
square canvas with fully transparent white, and writes the result to a
mirrored path.

The image pipeline (`Image.open` → `convert("RGBA")` → `getbbox` →
`crop` → `Image.new` → `paste` → `save`) is embedded shallowly below.
Pillow's `Image.getbbox()` is modelled with its default
`alpha_only=True` semantics on RGBA images: a pixel is background
exactly when its alpha channel is zero.  File-system effects (walking,
`os.makedirs`, reads and writes) are embedded as an explicit trace of
operations over a functional file-system map.
-/

/-- Pixel storage modes of the imaging library that matter here:
grayscale (1 channel), RGB (3 channels) and RGBA (4 channels). -/
inductive Mode where
  | L
  | RGB
  | RGBA
  deriving DecidableEq, Repr

/-- Number of channels a mode stores per pixel. -/
def Mode.channels : Mode → Nat
  | .L => 1
  | .RGB => 3
  | .RGBA => 4

/-- An in-memory image: a mode, dimensions, and a per-pixel list of raw
channel values (indexed x, y; meaningful on `[0,width) × [0,height)`). -/
structure Image where
  mode : Mode
  width : Nat
  height : Nat
  raw : Nat → Nat → List Nat

/-- Well-formedness: every pixel stores exactly the channels of the mode. -/
def Image.wf (img : Image) : Prop :=
  ∀ x y, (img.raw x y).length = img.mode.channels

/-- Conversion of one pixel to RGBA channels, as `convert("RGBA")` does:
gray `v` becomes `(v,v,v,255)`, RGB gains an opaque alpha, RGBA is kept. -/
def convertPixel (m : Mode) (p : List Nat) : List Nat :=
  match m with
  | .L => [p.getD 0 0, p.getD 0 0, p.getD 0 0, 255]
  | .RGB => [p.getD 0 0, p.getD 1 0, p.getD 2 0, 255]
  | .RGBA => p

/-- `img.convert("RGBA")`: same dimensions, every pixel converted. -/
def Image.convertRGBA (img : Image) : Image :=
  { mode := .RGBA
    width := img.width
    height := img.height
    raw := fun x y => convertPixel img.mode (img.raw x y) }

/-- Alpha channel of a pixel (channel index 3; 0 when absent). -/
def Image.alpha (img : Image) (x y : Nat) : Nat :=
  (img.raw x y).getD 3 0

/-- Does row `y` contain a pixel with nonzero alpha? -/
def Image.rowHas (img : Image) (y : Nat) : Bool :=
  (List.range img.width).any fun x => img.alpha x y != 0

/-- Does column `x` contain a pixel with nonzero alpha? -/
def Image.colHas (img : Image) (x : Nat) : Bool :=
  (List.range img.height).any fun y => img.alpha x y != 0

/-- Indices of columns holding non-background content, in increasing order. -/
def Image.cols (img : Image) : List Nat :=
  (List.range img.width).filter fun x => img.colHas x

/-- Indices of rows holding non-background content, in increasing order. -/
def Image.rows (img : Image) : List Nat :=
  (List.range img.height).filter fun y => img.rowHas y

/-- `img.getbbox()` under Pillow's default `alpha_only=True` on an RGBA
image: the minimal box `(left, upper, right, lower)` containing every
pixel of nonzero alpha, or `none` when there is no such pixel. -/
def Image.getbbox (img : Image) : Option (Nat × Nat × Nat × Nat) :=
  match img.cols.min?, img.cols.max?, img.rows.min?, img.rows.max? with
  | some l, some r, some t, some b => some (l, t, r + 1, b + 1)
  | _, _, _, _ => none

/-- `img.crop(box)`: the rectangular region of the image; Pillow returns
a copy of the whole image when the box argument is `None`.  The script
only ever passes `img.getbbox()`, whose box lies inside the image. -/
def Image.crop (img : Image) (box : Option (Nat × Nat × Nat × Nat)) : Image :=
  match box with
  | none => img
  | some (l, t, r, b) =>
      { mode := img.mode
        width := r - l
        height := b - t
        raw := fun x y => img.raw (l + x) (t + y) }

/-- `Image.new("RGBA", size, color)`: a fresh canvas of constant color. -/
def Image.new (size : Nat × Nat) (color : List Nat) : Image :=
  { mode := .RGBA
    width := size.1
    height := size.2
    raw := fun _ _ => color }

/-- `base.paste(src, pos)` with a 2-tuple position: pixels inside the
pasted rectangle come from `src` (alpha included, since no mask is
given), all others stay from `base`. -/
def Image.paste (base src : Image) (pos : Nat × Nat) : Image :=
  { base with
    raw := fun x y =>
      if pos.1 ≤ x ∧ x < pos.1 + src.width ∧ pos.2 ≤ y ∧ y < pos.2 + src.height then
        src.raw (x - pos.1) (y - pos.2)
      else
        base.raw x y }

/-- The pure image-to-image part of `crop_image` (between `Image.open`
and `new_img.save`), line for line: convert to RGBA, take the bounding
box, crop to it, build a square transparent-white canvas of side
`max(width, height)`, and paste the crop centered. -/
def crop_image_transform (img0 : Image) : Image :=
  let img := img0.convertRGBA
  let bbox := img.getbbox
  let cropped_img := img.crop bbox
  let width := cropped_img.width
  let height := cropped_img.height
  let size := max width height
  let new_img := Image.new (size, size) [255, 255, 255, 0]
  new_img.paste cropped_img ((size - width) / 2, (size - height) / 2)

/-- Pixel-for-pixel equality of two images: same mode and dimensions and
identical raw channels at every in-range coordinate. -/
def Image.sim (a b : Image) : Prop :=
  a.mode = b.mode ∧ a.width = b.width ∧ a.height = b.height ∧
    ∀ x, x < a.width → ∀ y, y < a.height → a.raw x y = b.raw x y

instance (a b : Image) : Decidable (a.sim b) := by
  unfold Image.sim; infer_instance

/-!
File-system side: paths are lists of components.  The batch loop is
embedded as a function producing a trace of file-system operations,
halting at the first failure exactly as an uncaught Python exception
would.
-/

/-- A file-system operation performed by the script, recorded by path.
The contents written by `write` are given by `crop_image_transform`
applied to the image read at the matching `read`. -/
inductive Op where
  | read (p : List String)
  | makedirs (p : List String)
  | write (p : List String)
  deriving DecidableEq, Repr

/-- One `crop_image(input_path, output_path)` call with its I/O:
`Image.open` fails when the path has no readable image (`fs` returns
`none`), `save` fails when the destination is not writable; otherwise
the call reads the input and writes the transformed image. -/
def crop_image_run (fs : List String → Option Image) (canWrite : List String → Bool)
    (input_path output_path : List String) : Except String (List Op) :=
  match fs input_path with
  | none => .error "read error"
  | some img =>
      let _new_img := crop_image_transform img
      if canWrite output_path then
        .ok [Op.read input_path, Op.write output_path]
      else
        .error "write error"

/-- `os.path.relpath(root, base)` for the only case the walk produces:
`root` is `base` extended by the components of a subdirectory. -/
def os_path_relpath (root base : List String) : List String :=
  root.drop base.length

/-- `os.makedirs(path, exist_ok=True)` acting on the set of existing
directories: every prefix of the path not present yet is created, and a
path already present is left alone without error. -/
def os_makedirs (existing : List (List String)) (path : List String) :
    List (List String) :=
  existing ++
    (((List.range (path.length + 1)).map fun k => path.take k).filter
      fun d => !(decide (d ∈ existing)))

/-- Python's `str.endswith(suffix)`: a case-sensitive suffix test. -/
def str_endswith (s suffix : String) : Bool :=
  suffix.data.isSuffixOf s.data

/-- The inner `for filename in files` loop for one walked directory
`root`: each file ending in `".png"` gets the directory mirrored under
the output folder created and `crop_image` invoked; other files are
skipped.  Returns the operation trace and the first error, at which the
loop (and the whole batch) stops. -/
def processDir (fs : List String → Option Image) (canWrite : List String → Bool)
    (input_folder output_folder root : List String) :
    List String → List Op × Option String
  | [] => ([], none)
  | filename :: files =>
      if str_endswith filename ".png" then
        let input_path := root ++ [filename]
        let relative_path := os_path_relpath root input_folder
        let output_dir := output_folder ++ relative_path
        let output_path := output_dir ++ [filename]
        match crop_image_run fs canWrite input_path output_path with
        | .error e => ([Op.makedirs output_dir], some e)
        | .ok ops =>
            let rest := processDir fs canWrite input_folder output_folder root files
            (Op.makedirs output_dir :: ops ++ rest.1, rest.2)
      else
        processDir fs canWrite input_folder output_folder root files

/-- `os.walk(input_folder)` over a tree given as root-relative directory
paths with their file names: yields each directory's absolute root
together with its files, exhaustively. -/
def os_walk (input_folder : List String) (tree : List (List String × List String)) :
    List (List String × List String) :=
  tree.map fun e => (input_folder ++ e.1, e.2)

/-- The outer `for root, _, files in os.walk(...)` loop over the walk's
output: directories are processed in order and an error in any file
halts the entire batch. -/
def runWalk (fs : List String → Option Image) (canWrite : List String → Bool)
    (input_folder output_folder : List String) :
    List (List String × List String) → List Op × Option String
  | [] => ([], none)
  | (root, files) :: rest =>
      let d := processDir fs canWrite input_folder output_folder root files
      match d.2 with
      | some e => (d.1, some e)
      | none =>
          let r := runWalk fs canWrite input_folder output_folder rest
          (d.1 ++ r.1, r.2)

/-- The square-canvas step applied to an already-RGBA image; the full
transform is this step after RGBA conversion (`crop_image_transform_eq`). -/
def squareOf (j : Image) : Image :=
  let bbox := j.getbbox
  let cropped_img := j.crop bbox
  let width := cropped_img.width
  let height := cropped_img.height
  let size := max width height
  let new_img := Image.new (size, size) [255, 255, 255, 0]
  new_img.paste cropped_img ((size - width) / 2, (size - height) / 2)

/-- The cropped image the pipeline pastes: crop to the bounding box. -/
def croppedOf (j : Image) : Image := j.crop j.getbbox

/-- Side length of the square canvas built for image `j`. -/
def sideOf (j : Image) : Nat := max (croppedOf j).width (croppedOf j).height

/-- Horizontal paste offset used for image `j`. -/
def pxOf (j : Image) : Nat := (sideOf j - (croppedOf j).width) / 2

/-- Vertical paste offset used for image `j`. -/
def pyOf (j : Image) : Nat := (sideOf j - (croppedOf j).height) / 2

/-- The spec's concrete scenario input: a 100×40 image, all-white opaque
background, with a 60×30 non-white (red) opaque rectangle whose top-left
corner is at (20,5). -/
def scenarioImg : Image :=
  { mode := .RGBA
    width := 100
    height := 40
    raw := fun x y =>
      if 20 ≤ x ∧ x < 80 ∧ 5 ≤ y ∧ y < 35 then [255, 0, 0, 255]
      else [255, 255, 255, 255] }

/-- A 3×3 image with an opaque column at x = 1 and transparent white
padding elsewhere: a centered square whose content touches the top and
bottom canvas edges. -/
def columnImg : Image :=
  { mode := .RGBA
    width := 3
    height := 3
    raw := fun x _ => if x = 1 then [0, 0, 0, 255] else [255, 255, 255, 0] }

/-- A 1×1 opaque white image. -/
def dotImg : Image :=
  { mode := .RGBA, width := 1, height := 1, raw := fun _ _ => [255, 255, 255, 255] }

/-- A 1×2 fully opaque image; squaring it to 2×2 leaves padding. -/
def tallImg : Image :=
  { mode := .RGBA, width := 1, height := 2, raw := fun _ _ => [10, 20, 30, 255] }

/-- A 2×1 fully transparent image (`getbbox` finds nothing). -/
def clearImg : Image :=
  { mode := .RGBA, width := 2, height := 1, raw := fun _ _ => [5, 5, 5, 0] }

/-- A 1×1 grayscale image. -/
def grayImg : Image :=
  { mode := .L, width := 1, height := 1, raw := fun _ _ => [7] }

set_option maxRecDepth 1000000

/-!
Characterization of `getbbox` and basic facts about the pipeline steps.
-/

theorem crop_image_transform_eq (img : Image) :
    crop_image_transform img = squareOf img.convertRGBA := rfl

theorem convertRGBA_squareOf (j : Image) :
    (squareOf j).convertRGBA = squareOf j := rfl

theorem Image.colHas_iff (img : Image) (x : Nat) :
    img.colHas x = true ↔ ∃ y, y < img.height ∧ img.alpha x y ≠ 0 := by
  simp [Image.colHas, List.any_eq_true, List.mem_range]

theorem Image.rowHas_iff (img : Image) (y : Nat) :
    img.rowHas y = true ↔ ∃ x, x < img.width ∧ img.alpha x y ≠ 0 := by
  simp [Image.rowHas, List.any_eq_true, List.mem_range]

theorem Image.mem_cols (img : Image) (x : Nat) :
    x ∈ img.cols ↔ x < img.width ∧ img.colHas x = true := by
  simp [Image.cols, List.mem_filter, List.mem_range]

theorem Image.mem_rows (img : Image) (y : Nat) :
    y ∈ img.rows ↔ y < img.height ∧ img.rowHas y = true := by
  simp [Image.rows, List.mem_filter, List.mem_range]

theorem Image.cols_eq_nil_iff (img : Image) :
    img.cols = [] ↔ ∀ x, x < img.width → ∀ y, y < img.height → img.alpha x y = 0 := by
  rw [List.eq_nil_iff_forall_not_mem]
  constructor
  · intro h x hx y hy
    by_contra hne
    exact h x ((img.mem_cols x).2 ⟨hx, (img.colHas_iff x).2 ⟨y, hy, hne⟩⟩)
  · intro h x hx
    rcases (img.mem_cols x).1 hx with ⟨hxw, hcol⟩
    rcases (img.colHas_iff x).1 hcol with ⟨y, hy, hne⟩
    exact hne (h x hxw y hy)

theorem Image.rows_eq_nil_iff (img : Image) :
    img.rows = [] ↔ ∀ x, x < img.width → ∀ y, y < img.height → img.alpha x y = 0 := by
  rw [List.eq_nil_iff_forall_not_mem]
  constructor
  · intro h x hx y hy
    by_contra hne
    exact h y ((img.mem_rows y).2 ⟨hy, (img.rowHas_iff y).2 ⟨x, hx, hne⟩⟩)
  · intro h y hy
    rcases (img.mem_rows y).1 hy with ⟨hyh, hrow⟩
    rcases (img.rowHas_iff y).1 hrow with ⟨x, hx, hne⟩
    exact hne (h x hx y hyh)

theorem Image.getbbox_eq_none_iff (img : Image) :
    img.getbbox = none ↔
      ∀ x, x < img.width → ∀ y, y < img.height → img.alpha x y = 0 := by
  unfold Image.getbbox
  constructor
  · intro h
    rcases hc : img.cols.min? with _ | l
    · exact (img.cols_eq_nil_iff).1 (List.min?_eq_none_iff.1 hc)
    · rcases hr : img.cols.max? with _ | r
      · exact (img.cols_eq_nil_iff).1 (List.max?_eq_none_iff.1 hr)
      · rcases ht : img.rows.min? with _ | t
        · exact (img.rows_eq_nil_iff).1 (List.min?_eq_none_iff.1 ht)
        · rcases hb : img.rows.max? with _ | b
          · exact (img.rows_eq_nil_iff).1 (List.max?_eq_none_iff.1 hb)
          · rw [hc, hr, ht, hb] at h
            simp at h
  · intro h
    have hc : img.cols.min? = none :=
      List.min?_eq_none_iff.2 ((img.cols_eq_nil_iff).2 h)
    rw [hc]

theorem Image.getbbox_eq_some_iff (img : Image) (l t r b : Nat) :
    img.getbbox = some (l, t, r, b) ↔
      l < r ∧ t < b ∧ r ≤ img.width ∧ b ≤ img.height ∧
      img.colHas l = true ∧ img.colHas (r - 1) = true ∧
      img.rowHas t = true ∧ img.rowHas (b - 1) = true ∧
      ∀ x, x < img.width → ∀ y, y < img.height → img.alpha x y ≠ 0 →
        l ≤ x ∧ x < r ∧ t ≤ y ∧ y < b := by
  unfold Image.getbbox
  constructor
  · intro h
    rcases hc : img.cols.min? with _ | l'
    · rw [hc] at h; simp at h
    rcases hr : img.cols.max? with _ | r'
    · rw [hc, hr] at h; simp at h
    rcases ht : img.rows.min? with _ | t'
    · rw [hc, hr, ht] at h; simp at h
    rcases hb : img.rows.max? with _ | b'
    · rw [hc, hr, ht, hb] at h; simp at h
    rw [hc, hr, ht, hb] at h
    simp only [Option.some.injEq, Prod.mk.injEq] at h
    obtain ⟨rfl, rfl, rfl, rfl⟩ := h
    obtain ⟨hlmem, hlle⟩ := List.min?_eq_some_iff'.1 hc
    obtain ⟨hrmem, hrle⟩ := List.max?_eq_some_iff'.1 hr
    obtain ⟨htmem, htle⟩ := List.min?_eq_some_iff'.1 ht
    obtain ⟨hbmem, hble⟩ := List.max?_eq_some_iff'.1 hb
    obtain ⟨hlw, hlcol⟩ := (img.mem_cols l').1 hlmem
    obtain ⟨hrw, hrcol⟩ := (img.mem_cols r').1 hrmem
    obtain ⟨hth, htrow⟩ := (img.mem_rows t').1 htmem
    obtain ⟨hbh, hbrow⟩ := (img.mem_rows b').1 hbmem
    have hlr : l' ≤ r' := hlle _ hrmem
    have htb : t' ≤ b' := htle _ hbmem
    refine ⟨by omega, by omega, by omega, by omega, hlcol, by simpa using hrcol,
      htrow, by simpa using hbrow, ?_⟩
    intro x hx y hy hne
    have hxc : x ∈ img.cols :=
      (img.mem_cols x).2 ⟨hx, (img.colHas_iff x).2 ⟨y, hy, hne⟩⟩
    have hyr : y ∈ img.rows :=
      (img.mem_rows y).2 ⟨hy, (img.rowHas_iff y).2 ⟨x, hx, hne⟩⟩
    have h1 := hlle _ hxc
    have h2 := hrle _ hxc
    have h3 := htle _ hyr
    have h4 := hble _ hyr
    omega
  · rintro ⟨hlr, htb, hrw, hbh, hlcol, hrcol, htrow, hbrow, hall⟩
    have hc : img.cols.min? = some l := by
      refine List.min?_eq_some_iff'.2 ⟨(img.mem_cols l).2 ⟨by omega, hlcol⟩, ?_⟩
      intro z hz
      obtain ⟨hzw, hzcol⟩ := (img.mem_cols z).1 hz
      obtain ⟨y, hy, hne⟩ := (img.colHas_iff z).1 hzcol
      exact (hall z hzw y hy hne).1
    have hr : img.cols.max? = some (r - 1) := by
      refine List.max?_eq_some_iff'.2 ⟨(img.mem_cols (r - 1)).2 ⟨by omega, hrcol⟩, ?_⟩
      intro z hz
      obtain ⟨hzw, hzcol⟩ := (img.mem_cols z).1 hz
      obtain ⟨y, hy, hne⟩ := (img.colHas_iff z).1 hzcol
      have := (hall z hzw y hy hne).2.1
      omega
    have ht : img.rows.min? = some t := by
      refine List.min?_eq_some_iff'.2 ⟨(img.mem_rows t).2 ⟨by omega, htrow⟩, ?_⟩
      intro z hz
      obtain ⟨hzh, hzrow⟩ := (img.mem_rows z).1 hz
      obtain ⟨x, hx, hne⟩ := (img.rowHas_iff z).1 hzrow
      exact (hall x hx z hzh hne).2.2.1
    have hb : img.rows.max? = some (b - 1) := by
      refine List.max?_eq_some_iff'.2 ⟨(img.mem_rows (b - 1)).2 ⟨by omega, hbrow⟩, ?_⟩
      intro z hz
      obtain ⟨hzh, hzrow⟩ := (img.mem_rows z).1 hz
      obtain ⟨x, hx, hne⟩ := (img.rowHas_iff z).1 hzrow
      have := (hall x hx z hzh hne).2.2.2
      omega
    rw [hc, hr, ht, hb]
    have h1 : r - 1 + 1 = r := by omega
    have h2 : b - 1 + 1 = b := by omega
    simp [h1, h2]

theorem squareOf_mode (j : Image) : (squareOf j).mode = Mode.RGBA := rfl

theorem squareOf_width (j : Image) : (squareOf j).width = sideOf j := rfl

theorem squareOf_height (j : Image) : (squareOf j).height = sideOf j := rfl

theorem squareOf_raw (j : Image) (x y : Nat) :
    (squareOf j).raw x y =
      if pxOf j ≤ x ∧ x < pxOf j + (croppedOf j).width ∧
          pyOf j ≤ y ∧ y < pyOf j + (croppedOf j).height then
        (croppedOf j).raw (x - pxOf j) (y - pyOf j)
      else
        [255, 255, 255, 0] := rfl

theorem squareOf_alpha (j : Image) (x y : Nat) :
    (squareOf j).alpha x y =
      if pxOf j ≤ x ∧ x < pxOf j + (croppedOf j).width ∧
          pyOf j ≤ y ∧ y < pyOf j + (croppedOf j).height then
        (croppedOf j).alpha (x - pxOf j) (y - pyOf j)
      else
        0 := by
  show ((squareOf j).raw x y).getD 3 0 = _
  rw [squareOf_raw]
  split <;> rfl

theorem croppedOf_of_some (j : Image) (l t r b : Nat)
    (hbb : j.getbbox = some (l, t, r, b)) :
    (croppedOf j).width = r - l ∧ (croppedOf j).height = b - t ∧
      ∀ u v, (croppedOf j).raw u v = j.raw (l + u) (t + v) := by
  unfold croppedOf
  rw [hbb]
  exact ⟨rfl, rfl, fun u v => rfl⟩

theorem croppedOf_of_none (j : Image) (hbb : j.getbbox = none) :
    croppedOf j = j := by
  unfold croppedOf
  rw [hbb]
  rfl

theorem getbbox_squareOf_of_some (j : Image) (l t r b : Nat)
    (hbb : j.getbbox = some (l, t, r, b)) :
    (squareOf j).getbbox =
      some (pxOf j, pyOf j, pxOf j + (r - l), pyOf j + (b - t)) := by
  obtain ⟨hlr, htb, hrw, hbh, hlcol, hrcol, htrow, hbrow, hall⟩ :=
    (j.getbbox_eq_some_iff l t r b).1 hbb
  obtain ⟨hcw, hch, hcraw⟩ := croppedOf_of_some j l t r b hbb
  have hcalpha : ∀ u v, (croppedOf j).alpha u v = j.alpha (l + u) (t + v) := by
    intro u v
    show ((croppedOf j).raw u v).getD 3 0 = (j.raw (l + u) (t + v)).getD 3 0
    rw [hcraw]
  have hS : sideOf j = max (r - l) (b - t) := by
    rw [sideOf, hcw, hch]
  have hwS : r - l ≤ sideOf j := by rw [hS]; exact Nat.le_max_left _ _
  have hhS : b - t ≤ sideOf j := by rw [hS]; exact Nat.le_max_right _ _
  have hpx : pxOf j = (sideOf j - (r - l)) / 2 := by rw [pxOf, hcw]
  have hpy : pyOf j = (sideOf j - (b - t)) / 2 := by rw [pyOf, hch]
  rw [Image.getbbox_eq_some_iff, squareOf_width, squareOf_height]
  refine ⟨by omega, by omega, by omega, by omega, ?_, ?_, ?_, ?_, ?_⟩
  · -- column pxOf j holds content coming from column l of j
    obtain ⟨y₁, hy₁h, hy₁ne⟩ := (j.colHas_iff l).1 hlcol
    obtain ⟨-, -, hty₁, hy₁b⟩ := hall l (by omega) y₁ hy₁h hy₁ne
    rw [Image.colHas_iff, squareOf_height]
    refine ⟨pyOf j + (y₁ - t), by omega, ?_⟩
    rw [squareOf_alpha]
    rw [if_pos (by rw [hcw, hch]; omega)]
    have e1 : pxOf j - pxOf j = 0 := by omega
    have e2 : pyOf j + (y₁ - t) - pyOf j = y₁ - t := by omega
    rw [e1, e2, hcalpha]
    have e3 : l + 0 = l := by omega
    have e4 : t + (y₁ - t) = y₁ := by omega
    rw [e3, e4]
    exact hy₁ne
  · -- column pxOf j + (r - l) - 1 holds content coming from column r - 1
    obtain ⟨y₂, hy₂h, hy₂ne⟩ := (j.colHas_iff (r - 1)).1 hrcol
    obtain ⟨hlx, -, hty₂, hy₂b⟩ := hall (r - 1) (by omega) y₂ hy₂h hy₂ne
    rw [Image.colHas_iff, squareOf_height]
    refine ⟨pyOf j + (y₂ - t), by omega, ?_⟩
    rw [squareOf_alpha]
    rw [if_pos (by rw [hcw, hch]; omega)]
    have e1 : pxOf j + (r - l) - 1 - pxOf j = r - l - 1 := by omega
    have e2 : pyOf j + (y₂ - t) - pyOf j = y₂ - t := by omega
    rw [e1, e2, hcalpha]
    have e3 : l + (r - l - 1) = r - 1 := by omega
    have e4 : t + (y₂ - t) = y₂ := by omega
    rw [e3, e4]
    exact hy₂ne
  · -- row pyOf j holds content coming from row t of j
    obtain ⟨x₁, hx₁w, hx₁ne⟩ := (j.rowHas_iff t).1 htrow
    obtain ⟨hlx₁, hx₁r, -, -⟩ := hall x₁ hx₁w t (by omega) hx₁ne
    rw [Image.rowHas_iff, squareOf_width]
    refine ⟨pxOf j + (x₁ - l), by omega, ?_⟩
    rw [squareOf_alpha]
    rw [if_pos (by rw [hcw, hch]; omega)]
    have e1 : pxOf j + (x₁ - l) - pxOf j = x₁ - l := by omega
    have e2 : pyOf j - pyOf j = 0 := by omega
    rw [e1, e2, hcalpha]
    have e3 : l + (x₁ - l) = x₁ := by omega
    have e4 : t + 0 = t := by omega
    rw [e3, e4]
    exact hx₁ne
  · -- row pyOf j + (b - t) - 1 holds content coming from row b - 1
    obtain ⟨x₂, hx₂w, hx₂ne⟩ := (j.rowHas_iff (b - 1)).1 hbrow
    obtain ⟨hlx₂, hx₂r, -, -⟩ := hall x₂ hx₂w (b - 1) (by omega) hx₂ne
    rw [Image.rowHas_iff, squareOf_width]
    refine ⟨pxOf j + (x₂ - l), by omega, ?_⟩
    rw [squareOf_alpha]
    rw [if_pos (by rw [hcw, hch]; omega)]
    have e1 : pxOf j + (x₂ - l) - pxOf j = x₂ - l := by omega
    have e2 : pyOf j + (b - t) - 1 - pyOf j = b - t - 1 := by omega
    rw [e1, e2, hcalpha]
    have e3 : l + (x₂ - l) = x₂ := by omega
    have e4 : t + (b - t - 1) = b - 1 := by omega
    rw [e3, e4]
    exact hx₂ne
  · -- every content pixel of the square lies inside the pasted region
    intro x hx y hy hne
    rw [squareOf_alpha] at hne
    by_cases hreg : pxOf j ≤ x ∧ x < pxOf j + (croppedOf j).width ∧
        pyOf j ≤ y ∧ y < pyOf j + (croppedOf j).height
    · rw [hcw, hch] at hreg
      omega
    · rw [if_neg hreg] at hne
      exact absurd rfl hne

theorem getbbox_squareOf_of_none (j : Image) (hbb : j.getbbox = none) :
    (squareOf j).getbbox = none := by
  have hcj : croppedOf j = j := croppedOf_of_none j hbb
  rw [Image.getbbox_eq_none_iff] at hbb
  rw [Image.getbbox_eq_none_iff, squareOf_width, squareOf_height]
  intro x hx y hy
  rw [squareOf_alpha]
  by_cases hreg : pxOf j ≤ x ∧ x < pxOf j + (croppedOf j).width ∧
      pyOf j ≤ y ∧ y < pyOf j + (croppedOf j).height
  · rw [if_pos hreg, hcj]
    rw [hcj] at hreg
    exact hbb _ (by omega) _ (by omega)
  · rw [if_neg hreg]

theorem squareOf_idem (j : Image) : (squareOf (squareOf j)).sim (squareOf j) := by
  rcases hbb : j.getbbox with - | ⟨l, t, r, b⟩
  · -- entirely background: the square step pastes the whole image at (0,0)
    have hbb2 : (squareOf j).getbbox = none := getbbox_squareOf_of_none j hbb
    have hcj2 : croppedOf (squareOf j) = squareOf j := croppedOf_of_none _ hbb2
    have hS2 : sideOf (squareOf j) = sideOf j := by
      rw [sideOf, hcj2, squareOf_width, squareOf_height, Nat.max_self]
    have hpx2 : pxOf (squareOf j) = 0 := by
      rw [pxOf, hcj2, squareOf_width, hS2]
      omega
    have hpy2 : pyOf (squareOf j) = 0 := by
      rw [pyOf, hcj2, squareOf_height, hS2]
      omega
    refine ⟨rfl, ?_, ?_, ?_⟩
    · rw [squareOf_width, squareOf_width, hS2]
    · rw [squareOf_height, squareOf_height, hS2]
    · intro x hx y hy
      rw [squareOf_width, hS2] at hx
      rw [squareOf_height, hS2] at hy
      rw [squareOf_raw (squareOf j), hpx2, hpy2, hcj2, squareOf_width, squareOf_height]
      rw [if_pos (by omega)]
      have e1 : x - 0 = x := by omega
      have e2 : y - 0 = y := by omega
      rw [e1, e2]
  · -- nonempty bounding box: the second pass re-crops the pasted region
    have hbb2 := getbbox_squareOf_of_some j l t r b hbb
    obtain ⟨hcw, hch, -⟩ := croppedOf_of_some j l t r b hbb
    obtain ⟨hcw2, hch2, hcraw2⟩ := croppedOf_of_some (squareOf j) _ _ _ _ hbb2
    have hcw2' : (croppedOf (squareOf j)).width = r - l := by rw [hcw2]; omega
    have hch2' : (croppedOf (squareOf j)).height = b - t := by rw [hch2]; omega
    have hS2 : sideOf (squareOf j) = sideOf j := by
      rw [sideOf, hcw2', hch2', sideOf, hcw, hch]
    have hpx2 : pxOf (squareOf j) = pxOf j := by
      rw [pxOf, hcw2', hS2, pxOf, hcw]
    have hpy2 : pyOf (squareOf j) = pyOf j := by
      rw [pyOf, hch2', hS2, pyOf, hch]
    refine ⟨rfl, ?_, ?_, ?_⟩
    · rw [squareOf_width, squareOf_width, hS2]
    · rw [squareOf_height, squareOf_height, hS2]
    · intro x hx y hy
      rw [squareOf_raw (squareOf j), hpx2, hpy2, hcw2', hch2']
      by_cases hreg : pxOf j ≤ x ∧ x < pxOf j + (r - l) ∧
          pyOf j ≤ y ∧ y < pyOf j + (b - t)
      · rw [if_pos hreg, hcraw2]
        have e1 : pxOf j + (x - pxOf j) = x := by omega
        have e2 : pyOf j + (y - pyOf j) = y := by omega
        rw [e1, e2]
      · rw [if_neg hreg, squareOf_raw j, hcw, hch, if_neg hreg]

/-!
Lemmas about the batch loop's operation trace.
-/

theorem crop_image_run_ok (fs : List String → Option Image) (canWrite : List String → Bool)
    (i o : List String) (ops : List Op) (h : crop_image_run fs canWrite i o = .ok ops) :
    ops = [Op.read i, Op.write o] := by
  unfold crop_image_run at h
  cases hf : fs i <;> rw [hf] at h
  · simp at h
  · dsimp at h
    split at h
    · simp only [Except.ok.injEq] at h
      exact h.symm
    · simp at h

theorem processDir_ops_shape (fs : List String → Option Image) (cw : List String → Bool)
    (inF outF root : List String) (files : List String) :
    ∀ op ∈ (processDir fs cw inF outF root files).1,
      (∃ d, op = Op.makedirs d) ∨
      ∃ q n, str_endswith n ".png" = true ∧
        (op = Op.read (q ++ [n]) ∨ op = Op.write (q ++ [n])) := by
  induction files with
  | nil => simp [processDir]
  | cons f fsl ih =>
    intro op hop
    cases hf : str_endswith f ".png"
    · rw [processDir, hf] at hop
      simp only [Bool.false_eq_true, if_false] at hop
      exact ih op hop
    · rcases hcr : crop_image_run fs cw (root ++ [f])
          (outF ++ os_path_relpath root inF ++ [f]) with e | ops
      · simp only [processDir, hf, if_true, hcr] at hop
        simp only [List.mem_singleton] at hop
        exact Or.inl ⟨_, hop⟩
      · have hops := crop_image_run_ok fs cw _ _ _ hcr
        subst hops
        simp only [processDir, hf, if_true, hcr, List.mem_cons, List.mem_append,
          List.not_mem_nil, or_false, false_or] at hop
        rcases hop with (rfl | rfl | rfl) | hop
        · exact Or.inl ⟨_, rfl⟩
        · exact Or.inr ⟨root, f, hf, Or.inl rfl⟩
        · exact Or.inr ⟨outF ++ os_path_relpath root inF, f, hf, Or.inr rfl⟩
        · exact ih op hop

theorem runWalk_ops_shape (fs : List String → Option Image) (cw : List String → Bool)
    (inF outF : List String) (walk : List (List String × List String)) :
    ∀ op ∈ (runWalk fs cw inF outF walk).1,
      (∃ d, op = Op.makedirs d) ∨
      ∃ q n, str_endswith n ".png" = true ∧
        (op = Op.read (q ++ [n]) ∨ op = Op.write (q ++ [n])) := by
  induction walk with
  | nil => simp [runWalk]
  | cons hd tl ih =>
    obtain ⟨root, files⟩ := hd
    intro op hop
    rcases hd2 : (processDir fs cw inF outF root files).2 with - | e
    · simp only [runWalk, hd2, List.mem_append] at hop
      rcases hop with hop | hop
      · exact processDir_ops_shape fs cw inF outF root files op hop
      · exact ih op hop
    · simp only [runWalk, hd2] at hop
      exact processDir_ops_shape fs cw inF outF root files op hop

theorem os_makedirs_mem_take (s : List (List String)) (p : List String) (k : Nat)
    (hk : k ≤ p.length) : p.take k ∈ os_makedirs s p := by
  by_cases h : p.take k ∈ s
  · exact List.mem_append_left _ h
  · refine List.mem_append_right _ (List.mem_filter.2 ⟨?_, ?_⟩)
    · exact List.mem_map.2 ⟨k, List.mem_range.2 (by omega), rfl⟩
    · simp [h]

theorem os_makedirs_mem_self (s : List (List String)) (p : List String) :
    p ∈ os_makedirs s p := by
  have := os_makedirs_mem_take s p p.length (Nat.le_refl _)
  simpa using this

theorem os_makedirs_idem (s : List (List String)) (p : List String) :
    os_makedirs (os_makedirs s p) p = os_makedirs s p := by
  have hnil : (((List.range (p.length + 1)).map fun k => p.take k).filter
      fun d => !(decide (d ∈ os_makedirs s p))) = [] := by
    rw [List.filter_eq_nil_iff]
    intro d hd
    obtain ⟨k, hk, rfl⟩ := List.mem_map.1 hd
    have hkle : k ≤ p.length := by
      have := List.mem_range.1 hk
      omega
    simp [os_makedirs_mem_take s p k hkle]
  show os_makedirs s p ++ _ = os_makedirs s p
  rw [hnil, List.append_nil]

theorem runWalk_append (fs : List String → Option Image) (cw : List String → Bool)
    (inF outF : List String) (w₁ w₂ : List (List String × List String))
    (h : (runWalk fs cw inF outF w₁).2 = none) :
    runWalk fs cw inF outF (w₁ ++ w₂) =
      ((runWalk fs cw inF outF w₁).1 ++ (runWalk fs cw inF outF w₂).1,
        (runWalk fs cw inF outF w₂).2) := by
  induction w₁ with
  | nil => simp [runWalk]
  | cons hd tl ih =>
    obtain ⟨root, files⟩ := hd
    rcases hd2 : (processDir fs cw inF outF root files).2 with - | e
    · have h' : (runWalk fs cw inF outF tl).2 = none := by
        simp only [runWalk, hd2] at h
        exact h
      simp [runWalk, hd2, ih h', List.append_assoc]
    · simp only [runWalk, hd2] at h
      simp at h

theorem processDir_append_error (fs : List String → Option Image) (cw : List String → Bool)
    (inF outF root : List String) (files₁ files₂ : List String) (f e : String)
    (h2 : (processDir fs cw inF outF root files₁).2 = none)
    (hf : str_endswith f ".png" = true)
    (herr : crop_image_run fs cw (root ++ [f])
      (outF ++ (os_path_relpath root inF ++ [f])) = .error e) :
    processDir fs cw inF outF root (files₁ ++ f :: files₂) =
      ((processDir fs cw inF outF root files₁).1 ++
        [Op.makedirs (outF ++ os_path_relpath root inF)], some e) := by
  induction files₁ with
  | nil => simp [processDir, hf, herr]
  | cons g gs ih =>
    cases hg : str_endswith g ".png"
    · have h2' : (processDir fs cw inF outF root gs).2 = none := by
        simpa [processDir, hg] using h2
      simp [processDir, hg, ih h2']
    · rcases hcr : crop_image_run fs cw (root ++ [g])
          (outF ++ (os_path_relpath root inF ++ [g])) with e' | ops
      · simp [processDir, hg, hcr] at h2
      · have h2' : (processDir fs cw inF outF root gs).2 = none := by
          simpa [processDir, hg, hcr] using h2
        simp [processDir, hg, hcr, ih h2', List.append_assoc]

theorem os_path_relpath_append (base rel : List String) :
    os_path_relpath (base ++ rel) base = rel := by
  simp [os_path_relpath, List.drop_left]

theorem processDir_writes (fs : List String → Option Image) (cw : List String → Bool)
    (inF outF root : List String) (files : List String) (name : String)
    (hmem : name ∈ files) (hpng : str_endswith name ".png" = true)
    (hok : (processDir fs cw inF outF root files).2 = none) :
    Op.makedirs (outF ++ os_path_relpath root inF) ∈
      (processDir fs cw inF outF root files).1 ∧
    Op.write (outF ++ (os_path_relpath root inF ++ [name])) ∈
      (processDir fs cw inF outF root files).1 := by
  induction files with
  | nil => simp at hmem
  | cons f fsl ih =>
    rcases List.mem_cons.1 hmem with rfl | hmem'
    · rcases hcr : crop_image_run fs cw (root ++ [name])
          (outF ++ (os_path_relpath root inF ++ [name])) with e | ops
      · simp [processDir, hpng, hcr] at hok
      · have hops := crop_image_run_ok fs cw _ _ _ hcr
        subst hops
        simp [processDir, hpng, hcr]
    · cases hf : str_endswith f ".png"
      · have hok' : (processDir fs cw inF outF root fsl).2 = none := by
          simpa [processDir, hf] using hok
        have hih := ih hmem' hok'
        simpa [processDir, hf] using hih
      · rcases hcr : crop_image_run fs cw (root ++ [f])
            (outF ++ (os_path_relpath root inF ++ [f])) with e | ops
        · simp [processDir, hf, hcr] at hok
        · have hok' : (processDir fs cw inF outF root fsl).2 = none := by
            simpa [processDir, hf, hcr] using hok
          have hih := ih hmem' hok'
          constructor
          · simp [processDir, hf, hcr]
          · simp [processDir, hf, hcr, hih.2]

/-!
The claims.
-/

/-- C1: for every input image whose non-background bounding box is
non-empty, the crop transform produces a square output whose width and
height both equal `max(cropped_width, cropped_height)`. -/
theorem crop_image_output_square (img : Image) (bb : Nat × Nat × Nat × Nat)
    (h : img.convertRGBA.getbbox = some bb) :
    (crop_image_transform img).width = (crop_image_transform img).height ∧
    (crop_image_transform img).width =
      max (img.convertRGBA.crop img.convertRGBA.getbbox).width
        (img.convertRGBA.crop img.convertRGBA.getbbox).height :=
  ⟨rfl, rfl⟩

theorem crop_image_output_square_witness :
    dotImg.convertRGBA.getbbox = some (0, 0, 1, 1) ∧
    ((crop_image_transform dotImg).width = (crop_image_transform dotImg).height ∧
      (crop_image_transform dotImg).width =
        max (dotImg.convertRGBA.crop dotImg.convertRGBA.getbbox).width
          (dotImg.convertRGBA.crop dotImg.convertRGBA.getbbox).height) :=
  ⟨by decide, crop_image_output_square dotImg (0, 0, 1, 1) (by decide)⟩

/-- C2 counterexample: on the spec's scenario image the bounding box is
the full canvas (0,0,100,40), not (20,5,80,35), and the output is
100 pixels wide, not 60: `getbbox` never treats opaque white pixels as
background, only pixels of zero alpha. -/
theorem scenario_bbox_counterexample :
    scenarioImg.convertRGBA.getbbox = some (0, 0, 100, 40) ∧
    scenarioImg.convertRGBA.getbbox ≠ some (20, 5, 80, 35) ∧
    (crop_image_transform scenarioImg).width = 100 := by
  decide

/-- C2 (amended): on the 100×40 all-white-opaque image with the red
60×30 rectangle at (20,5), every pixel is non-background, so the
bounding box is the whole image (0,0,100,40), the cropped size is
100×40, the canvas side is 100, the paste offset is (0,30), and the
output is 100×100 with the original content at (0,30)–(100,70) and
transparent white elsewhere. -/
theorem scenario_amended :
    scenarioImg.convertRGBA.getbbox = some (0, 0, 100, 40) ∧
    (scenarioImg.convertRGBA.crop scenarioImg.convertRGBA.getbbox).width = 100 ∧
    (scenarioImg.convertRGBA.crop scenarioImg.convertRGBA.getbbox).height = 40 ∧
    sideOf scenarioImg.convertRGBA = 100 ∧
    pxOf scenarioImg.convertRGBA = 0 ∧
    pyOf scenarioImg.convertRGBA = 30 ∧
    (crop_image_transform scenarioImg).width = 100 ∧
    (crop_image_transform scenarioImg).height = 100 ∧
    (∀ x, x < 100 → ∀ y, y < 100 →
      (crop_image_transform scenarioImg).raw x y =
        if 30 ≤ y ∧ y < 70 then scenarioImg.raw x (y - 30)
        else [255, 255, 255, 0]) := by
  decide

/-- C3: the crop is pasted at offset ((S−w)//2, (S−h)//2) with integer
floor division, so the left and right gaps around the content (and the
top and bottom gaps) differ by at most one pixel. -/
theorem crop_image_paste_centered (img : Image) :
    crop_image_transform img =
      (Image.new (sideOf img.convertRGBA, sideOf img.convertRGBA)
          [255, 255, 255, 0]).paste (croppedOf img.convertRGBA)
        ((sideOf img.convertRGBA - (croppedOf img.convertRGBA).width) / 2,
          (sideOf img.convertRGBA - (croppedOf img.convertRGBA).height) / 2) ∧
    (pxOf img.convertRGBA + (croppedOf img.convertRGBA).width +
        (sideOf img.convertRGBA - (croppedOf img.convertRGBA).width -
          pxOf img.convertRGBA) = sideOf img.convertRGBA ∧
      pxOf img.convertRGBA ≤
        sideOf img.convertRGBA - (croppedOf img.convertRGBA).width -
          pxOf img.convertRGBA ∧
      (sideOf img.convertRGBA - (croppedOf img.convertRGBA).width -
          pxOf img.convertRGBA) - pxOf img.convertRGBA ≤ 1) ∧
    (pyOf img.convertRGBA + (croppedOf img.convertRGBA).height +
        (sideOf img.convertRGBA - (croppedOf img.convertRGBA).height -
          pyOf img.convertRGBA) = sideOf img.convertRGBA ∧
      pyOf img.convertRGBA ≤
        sideOf img.convertRGBA - (croppedOf img.convertRGBA).height -
          pyOf img.convertRGBA ∧
      (sideOf img.convertRGBA - (croppedOf img.convertRGBA).height -
          pyOf img.convertRGBA) - pyOf img.convertRGBA ≤ 1) := by
  refine ⟨rfl, ?_, ?_⟩
  · have hw : (croppedOf img.convertRGBA).width ≤ sideOf img.convertRGBA :=
      Nat.le_max_left _ _
    have hpx : pxOf img.convertRGBA =
        (sideOf img.convertRGBA - (croppedOf img.convertRGBA).width) / 2 := rfl
    omega
  · have hh : (croppedOf img.convertRGBA).height ≤ sideOf img.convertRGBA :=
      Nat.le_max_right _ _
    have hpy : pyOf img.convertRGBA =
        (sideOf img.convertRGBA - (croppedOf img.convertRGBA).height) / 2 := rfl
    omega

/-- C4 counterexample: `columnImg` is a centered square with transparent
white padding whose content touches the top and bottom canvas edges, and
it is a fixed point of the transform; yet the second pass's bounding box
is the content region (1,0,2,3), not the full canvas (0,0,3,3). -/
theorem idempotence_bbox_counterexample :
    columnImg.width = columnImg.height ∧
    (∀ x, x < 3 → ∀ y, y < 3 → x ≠ 1 → columnImg.raw x y = [255, 255, 255, 0]) ∧
    columnImg.alpha 1 0 ≠ 0 ∧ columnImg.alpha 1 2 ≠ 0 ∧
    (crop_image_transform columnImg).sim columnImg ∧
    columnImg.convertRGBA.getbbox = some (1, 0, 2, 3) ∧
    columnImg.convertRGBA.getbbox ≠ some (0, 0, 3, 3) := by
  decide

/-- C4 (amended): applying the crop-and-square transform twice yields
pixel-for-pixel the same output as applying it once — for every input
image, hence in particular for images that are already centered squares
with transparent padding, including when content touches the canvas
edge (where the second pass's bounding box is the pasted content's
region, not necessarily the full canvas). -/
theorem crop_image_transform_idem (img : Image) :
    (crop_image_transform (crop_image_transform img)).sim
      (crop_image_transform img) := by
  have h := squareOf_idem img.convertRGBA
  simpa [crop_image_transform_eq, convertRGBA_squareOf] using h

/-- C5: for every file name that does not end in ".png"
(case-sensitively), no path ending in that name is ever read or written
by the batch, whatever the tree, file-system contents or folders. -/
theorem walk_skips_non_png (fs : List String → Option Image) (cw : List String → Bool)
    (inF outF : List String) (walk : List (List String × List String))
    (name : String) (hn : str_endswith name ".png" = false) (q : List String) :
    Op.read (q ++ [name]) ∉ (runWalk fs cw inF outF walk).1 ∧
    Op.write (q ++ [name]) ∉ (runWalk fs cw inF outF walk).1 := by
  refine ⟨fun hmem => ?_, fun hmem => ?_⟩
  · rcases runWalk_ops_shape fs cw inF outF walk _ hmem with ⟨d, hd⟩ |
      ⟨q', n', hn', hop | hop⟩
    · exact Op.noConfusion hd
    · have h1 : q ++ [name] = q' ++ [n'] := by injection hop
      have h2 : some name = some n' := by
        have h3 := congrArg List.getLast? h1
        rwa [List.getLast?_concat, List.getLast?_concat] at h3
      have h4 : name = n' := by injection h2
      rw [← h4, hn] at hn'
      exact Bool.noConfusion hn'
    · exact Op.noConfusion hop
  · rcases runWalk_ops_shape fs cw inF outF walk _ hmem with ⟨d, hd⟩ |
      ⟨q', n', hn', hop | hop⟩
    · exact Op.noConfusion hd
    · exact Op.noConfusion hop
    · have h1 : q ++ [name] = q' ++ [n'] := by injection hop
      have h2 : some name = some n' := by
        have h3 := congrArg List.getLast? h1
        rwa [List.getLast?_concat, List.getLast?_concat] at h3
      have h4 : name = n' := by injection h2
      rw [← h4, hn] at hn'
      exact Bool.noConfusion hn'

theorem walk_skips_non_png_witness :
    str_endswith "logo.jpg" ".png" = false ∧
    (Op.read (["in"] ++ ["logo.jpg"]) ∉
      (runWalk (fun _ => some dotImg) (fun _ => true) ["in"] ["out"]
        (os_walk ["in"] [([], ["logo.jpg", "icon.png"])])).1 ∧
     Op.write (["in"] ++ ["logo.jpg"]) ∉
      (runWalk (fun _ => some dotImg) (fun _ => true) ["in"] ["out"]
        (os_walk ["in"] [([], ["logo.jpg", "icon.png"])])).1) :=
  ⟨by decide,
    walk_skips_non_png (fun _ => some dotImg) (fun _ => true) ["in"] ["out"]
      (os_walk ["in"] [([], ["logo.jpg", "icon.png"])]) "logo.jpg" (by decide) ["in"]⟩

/-- C6: for every eligible file `name` in directory `rel` of the walked
tree, if the batch finishes without error then the trace creates the
mirrored directory `dest ++ rel` and writes the output exactly at
`dest ++ rel ++ [name]`; `os.makedirs` creates every intermediate prefix
and is idempotent (no error when the directory already exists). -/
theorem walk_mirrors_output (fs : List String → Option Image) (cw : List String → Bool)
    (inF outF : List String) (tree : List (List String × List String))
    (rel files : List String) (name : String)
    (hmem : (rel, files) ∈ tree) (hfmem : name ∈ files)
    (hpng : str_endswith name ".png" = true)
    (hok : (runWalk fs cw inF outF (os_walk inF tree)).2 = none) :
    Op.makedirs (outF ++ rel) ∈ (runWalk fs cw inF outF (os_walk inF tree)).1 ∧
    Op.write (outF ++ (rel ++ [name])) ∈ (runWalk fs cw inF outF (os_walk inF tree)).1 ∧
    ∀ s, (∀ k, k ≤ (outF ++ rel).length →
        (outF ++ rel).take k ∈ os_makedirs s (outF ++ rel)) ∧
      os_makedirs (os_makedirs s (outF ++ rel)) (outF ++ rel) =
        os_makedirs s (outF ++ rel) := by
  refine ?_
  have hmk : ∀ s : List (List String), (∀ k, k ≤ (outF ++ rel).length →
      (outF ++ rel).take k ∈ os_makedirs s (outF ++ rel)) ∧
      os_makedirs (os_makedirs s (outF ++ rel)) (outF ++ rel) =
        os_makedirs s (outF ++ rel) :=
    fun s => ⟨fun k hk => os_makedirs_mem_take s _ k hk, os_makedirs_idem s _⟩
  induction tree with
  | nil => simp at hmem
  | cons hd tl ih =>
    obtain ⟨rel₀, files₀⟩ := hd
    rcases hd2 : (processDir fs cw inF outF (inF ++ rel₀) files₀).2 with - | e
    · have hok' : (runWalk fs cw inF outF (os_walk inF tl)).2 = none := by
        simpa [runWalk, os_walk, hd2] using hok
      rcases List.mem_cons.1 hmem with heq | hmem'
      · rw [Prod.mk.injEq] at heq
        obtain ⟨h1, h2⟩ := heq
        subst h1
        subst h2
        have hpw := processDir_writes fs cw inF outF (inF ++ rel) files name
          hfmem hpng hd2
        rw [os_path_relpath_append] at hpw
        refine ⟨?_, ?_, hmk⟩
        · simp only [os_walk, List.map_cons, runWalk, hd2, List.mem_append]
          exact Or.inl hpw.1
        · simp only [os_walk, List.map_cons, runWalk, hd2, List.mem_append]
          exact Or.inl hpw.2
      · have hih := ih hmem' hok'
        refine ⟨?_, ?_, hmk⟩
        · simp only [os_walk, List.map_cons, runWalk, hd2, List.mem_append]
          exact Or.inr hih.1
        · simp only [os_walk, List.map_cons, runWalk, hd2, List.mem_append]
          exact Or.inr hih.2.1
    · exfalso
      simp [runWalk, os_walk, hd2] at hok

theorem walk_mirrors_output_witness :
    (["a"], ["x.png"]) ∈ [((["a"] : List String), (["x.png"] : List String))] ∧
    "x.png" ∈ ["x.png"] ∧ str_endswith "x.png" ".png" = true ∧
    (runWalk (fun _ => some dotImg) (fun _ => true) ["in"] ["out"]
      (os_walk ["in"] [(["a"], ["x.png"])])).2 = none ∧
    (Op.makedirs (["out"] ++ ["a"]) ∈
        (runWalk (fun _ => some dotImg) (fun _ => true) ["in"] ["out"]
          (os_walk ["in"] [(["a"], ["x.png"])])).1 ∧
      Op.write (["out"] ++ (["a"] ++ ["x.png"])) ∈
        (runWalk (fun _ => some dotImg) (fun _ => true) ["in"] ["out"]
          (os_walk ["in"] [(["a"], ["x.png"])])).1 ∧
      ∀ s, (∀ k, k ≤ (["out"] ++ ["a"]).length →
          (["out"] ++ ["a"]).take k ∈ os_makedirs s (["out"] ++ ["a"])) ∧
        os_makedirs (os_makedirs s (["out"] ++ ["a"])) (["out"] ++ ["a"]) =
          os_makedirs s (["out"] ++ ["a"])) :=
  ⟨by decide, by decide, by decide, by decide,
    walk_mirrors_output (fun _ => some dotImg) (fun _ => true) ["in"] ["out"]
      [(["a"], ["x.png"])] ["a"] ["x.png"] "x.png"
      (by decide) (by decide) (by decide) (by decide)⟩

/-- C7: every pixel of the output canvas outside the pasted content
region is fully transparent white (255,255,255,0), and the output image
is a 4-channel RGBA image. -/
theorem crop_image_padding_transparent (img : Image) (x y : Nat)
    (hx : x < (crop_image_transform img).width)
    (hy : y < (crop_image_transform img).height)
    (hout : ¬(pxOf img.convertRGBA ≤ x ∧
        x < pxOf img.convertRGBA + (croppedOf img.convertRGBA).width ∧
        pyOf img.convertRGBA ≤ y ∧
        y < pyOf img.convertRGBA + (croppedOf img.convertRGBA).height)) :
    (crop_image_transform img).raw x y = [255, 255, 255, 0] ∧
    (crop_image_transform img).mode = Mode.RGBA := by
  constructor
  · rw [crop_image_transform_eq, squareOf_raw, if_neg hout]
  · rfl

theorem crop_image_padding_transparent_witness :
    (1 < (crop_image_transform tallImg).width ∧
      0 < (crop_image_transform tallImg).height ∧
      ¬(pxOf tallImg.convertRGBA ≤ 1 ∧
        1 < pxOf tallImg.convertRGBA + (croppedOf tallImg.convertRGBA).width ∧
        pyOf tallImg.convertRGBA ≤ 0 ∧
        0 < pyOf tallImg.convertRGBA + (croppedOf tallImg.convertRGBA).height)) ∧
    ((crop_image_transform tallImg).raw 1 0 = [255, 255, 255, 0] ∧
      (crop_image_transform tallImg).mode = Mode.RGBA) :=
  ⟨⟨by decide, by decide, by decide⟩,
    crop_image_padding_transparent tallImg 1 0 (by decide) (by decide) (by decide)⟩

/-- C8: the input is normalized to a 4-channel RGBA representation
before the bounding box is computed, whatever its original mode:
conversion always yields an RGBA image with 4 channels per pixel, and
the transform factors through that conversion. -/
theorem crop_image_normalizes_rgba (img : Image) (h : img.wf) :
    img.convertRGBA.mode = Mode.RGBA ∧ img.convertRGBA.wf ∧
    crop_image_transform img = crop_image_transform img.convertRGBA := by
  refine ⟨rfl, ?_, rfl⟩
  intro x y
  show (convertPixel img.mode (img.raw x y)).length = Mode.channels Mode.RGBA
  have hx := h x y
  cases hm : img.mode
  · simp [convertPixel, Mode.channels]
  · simp [convertPixel, Mode.channels]
  · rw [hm] at hx
    simpa [convertPixel, Mode.channels] using hx

theorem crop_image_normalizes_rgba_witness :
    grayImg.wf ∧
    (grayImg.convertRGBA.mode = Mode.RGBA ∧ grayImg.convertRGBA.wf ∧
      crop_image_transform grayImg = crop_image_transform grayImg.convertRGBA) :=
  ⟨fun _ _ => rfl, crop_image_normalizes_rgba grayImg (fun _ _ => rfl)⟩

/-- C9: a read or write failure on one file propagates and halts the
whole batch: the run's outcome is that file's error, the trace stops at
that file's makedirs, and the files and directories after it in
traversal order contribute nothing to the result. -/
theorem walk_halts_on_error (fs : List String → Option Image) (cw : List String → Bool)
    (inF outF root : List String)
    (walk₁ walk₂ : List (List String × List String))
    (files₁ files₂ : List String) (f e : String)
    (h1 : (runWalk fs cw inF outF walk₁).2 = none)
    (h2 : (processDir fs cw inF outF root files₁).2 = none)
    (hf : str_endswith f ".png" = true)
    (herr : crop_image_run fs cw (root ++ [f])
      (outF ++ (os_path_relpath root inF ++ [f])) = .error e) :
    runWalk fs cw inF outF (walk₁ ++ (root, files₁ ++ f :: files₂) :: walk₂) =
      ((runWalk fs cw inF outF walk₁).1 ++
        ((processDir fs cw inF outF root files₁).1 ++
          [Op.makedirs (outF ++ os_path_relpath root inF)]),
        some e) := by
  have hpd := processDir_append_error fs cw inF outF root files₁ files₂ f e h2 hf herr
  rw [runWalk_append fs cw inF outF walk₁ _ h1]
  have hrw : runWalk fs cw inF outF ((root, files₁ ++ f :: files₂) :: walk₂) =
      ((processDir fs cw inF outF root files₁).1 ++
        [Op.makedirs (outF ++ os_path_relpath root inF)], some e) := by
    simp [runWalk, hpd]
  rw [hrw]

theorem walk_halts_on_error_witness :
    (runWalk (fun _ => (none : Option Image)) (fun _ => true) ["in"] ["out"] []).2 =
      none ∧
    (processDir (fun _ => (none : Option Image)) (fun _ => true) ["in"] ["out"]
      ["in"] []).2 = none ∧
    str_endswith "a.png" ".png" = true ∧
    crop_image_run (fun _ => (none : Option Image)) (fun _ => true)
      (["in"] ++ ["a.png"]) (["out"] ++ (os_path_relpath ["in"] ["in"] ++ ["a.png"])) =
      .error "read error" ∧
    runWalk (fun _ => (none : Option Image)) (fun _ => true) ["in"] ["out"]
      ([] ++ (["in"], [] ++ "a.png" :: ["b.png"]) :: [(["in", "sub"], ["c.png"])]) =
      ((runWalk (fun _ => (none : Option Image)) (fun _ => true) ["in"] ["out"] []).1 ++
        ((processDir (fun _ => (none : Option Image)) (fun _ => true) ["in"] ["out"]
            ["in"] []).1 ++
          [Op.makedirs (["out"] ++ os_path_relpath ["in"] ["in"])]),
        some "read error") :=
  ⟨rfl, rfl, by decide, rfl,
    walk_halts_on_error (fun _ => (none : Option Image)) (fun _ => true) ["in"] ["out"]
      ["in"] [] [(["in", "sub"], ["c.png"])] [] ["b.png"] "a.png" "read error"
      rfl rfl (by decide) rfl⟩

/-- C10: on an entirely-background image (`getbbox` returns None) the
transform does not fail: cropping with None yields the whole image, and
the output is a square of side max(width, height) containing the whole
(RGBA-converted) original image centered. -/
theorem crop_image_empty_bbox (img : Image)
    (h : img.convertRGBA.getbbox = none) :
    (crop_image_transform img).width = max img.width img.height ∧
    (crop_image_transform img).height = max img.width img.height ∧
    ∀ x, x < img.width → ∀ y, y < img.height →
      (crop_image_transform img).raw
        ((max img.width img.height - img.width) / 2 + x)
        ((max img.width img.height - img.height) / 2 + y) =
      img.convertRGBA.raw x y := by
  have hcj : croppedOf img.convertRGBA = img.convertRGBA := croppedOf_of_none _ h
  have hS : sideOf img.convertRGBA = max img.width img.height := by
    rw [sideOf, hcj]
    rfl
  have hpx : pxOf img.convertRGBA = (max img.width img.height - img.width) / 2 := by
    rw [pxOf, hcj, hS]
    rfl
  have hpy : pyOf img.convertRGBA = (max img.width img.height - img.height) / 2 := by
    rw [pyOf, hcj, hS]
    rfl
  refine ⟨?_, ?_, ?_⟩
  · rw [crop_image_transform_eq, squareOf_width, hS]
  · rw [crop_image_transform_eq, squareOf_height, hS]
  · intro x hx y hy
    rw [crop_image_transform_eq, squareOf_raw, ← hpx, ← hpy, hcj]
    have hw : img.convertRGBA.width = img.width := rfl
    have hh : img.convertRGBA.height = img.height := rfl
    rw [hw, hh]
    rw [if_pos (by omega)]
    have e1 : pxOf img.convertRGBA + x - pxOf img.convertRGBA = x := by omega
    have e2 : pyOf img.convertRGBA + y - pyOf img.convertRGBA = y := by omega
    rw [e1, e2]

theorem crop_image_empty_bbox_witness :
    clearImg.convertRGBA.getbbox = none ∧
    ((crop_image_transform clearImg).width = max clearImg.width clearImg.height ∧
      (crop_image_transform clearImg).height = max clearImg.width clearImg.height ∧
      ∀ x, x < clearImg.width → ∀ y, y < clearImg.height →
        (crop_image_transform clearImg).raw
          ((max clearImg.width clearImg.height - clearImg.width) / 2 + x)
          ((max clearImg.width clearImg.height - clearImg.height) / 2 + y) =
        clearImg.convertRGBA.raw x y) :=
  ⟨by decide, crop_image_empty_bbox clearImg (by decide)⟩
